import Mathlib

/-!
# go-expiration-check: a shallow embedding of `main.go`

The program gathers domain names (flag, environment variable, standard input),
looks each one up through RDAP and prints registrar and expiry data.

Go strings are modelled by `String` (sequences of characters), Go slices by
`List`, a Go `map[string]string` by a function `String → Option String`,
and a Go run-time panic by the error side of `Except Panic`.  A Go function
returning `(DomainInfo, error)` returns the pair `DomainInfo × Option Error`
(`none` is the `nil` error).  Everything the program obtains from outside
(environment, standard input, HTTP, the RDAP client, the `time` and
`encoding/json` packages) is a field of `World`.
-/

set_option autoImplicit false

namespace ExpirationCheck

/-! ## Strings: the parts of the `strings`, `unicode` and `bufio` packages the program calls -/

/-- Pieces of `s` between occurrences of `sep`: `strings.Split(s, sep)` for a
one-character separator, on the characters of the string. -/
def splitChars (sep : Char) : List Char → List (List Char)
  | [] => [[]]
  | c :: cs =>
    if c = sep then [] :: splitChars sep cs
    else
      match splitChars sep cs with
      | [] => [[c]]
      | p :: ps => (c :: p) :: ps

/-- Go `strings.Split(s, sep)` for a one-character separator. -/
def Split (s : String) (sep : Char) : List String :=
  (splitChars sep s.data).map String.mk

/-- Go `unicode.IsSpace`: the Latin-1 cases of the switch, then the
`White_Space` range table. -/
def IsSpace (r : Char) : Bool :=
  if r.toNat ≤ 0xFF then
    r = '\t' || r = '\n' || r.toNat = 0x0B || r.toNat = 0x0C || r = '\r' || r.toNat = 0x20
      || r.toNat = 0x85 || r.toNat = 0xA0
  else
    r.toNat = 0x1680 || (0x2000 ≤ r.toNat && r.toNat ≤ 0x200A) || r.toNat = 0x2028
      || r.toNat = 0x2029 || r.toNat = 0x202F || r.toNat = 0x205F || r.toNat = 0x3000

/-- Go `strings.TrimSpace`: all leading and trailing white space removed. -/
def TrimSpace (s : String) : String :=
  String.mk ((s.data.dropWhile IsSpace).reverse.dropWhile IsSpace).reverse

/-- Go `(*bufio.Reader).ReadString(delim)` on a stream whose remaining content
is `input`: the characters up to and including the first `delim`; when the
stream ends before a `delim`, what was read together with the error `EOF`. -/
def readChars (delim : Char) : List Char → List Char × Option String
  | [] => ([], some "EOF")
  | c :: cs =>
    if c = delim then ([c], none)
    else ((c :: (readChars delim cs).1), (readChars delim cs).2)

/-- Go `reader.ReadString(delim)` as a pair `(input, err)`. -/
def ReadString (input : String) (delim : Char) : String × Option String :=
  (String.mk (readChars delim input.data).1, (readChars delim input.data).2)

/-! ## Run-time panics and indexing -/

/-- Go run-time panics the modelled code can raise. -/
inductive Panic where
  | nilPointerDereference
  | indexOutOfRange
  deriving DecidableEq, Repr

deriving instance DecidableEq for Except

/-- Go index expression `xs[i]` on a slice: a run-time panic when `i` is out
of range. -/
def index {α : Type} (xs : List α) (i : Nat) : Except Panic α :=
  match xs.get? i with
  | some x => .ok x
  | none => .error .indexOutOfRange

/-! ## `ExtractTLD` (main.go 225-230) -/

/-- Go `ExtractTLD`: `parts := strings.Split(domain, ".")`, then
`parts[len(parts)-1]`. -/
def ExtractTLD (domain : String) : Except Panic String :=
  let parts := Split domain '.'
  index parts (parts.length - 1)

/-! ## Data model (main.go 18-28 and the records of the RDAP client) -/

/-- Go `time.Duration`: a number of nanoseconds. -/
abbrev Duration := Int

/-- Go `time.Time`: an instant, in nanoseconds since January 1, year 1,
00:00:00 UTC, with the zone offset it is displayed in. -/
structure Time where
  sinceZero : Int
  zoneOffset : Int
  deriving DecidableEq, Repr

/-- The zero `time.Time`, the value of `var expiryDate time.Time`. -/
def Time.zero : Time := ⟨0, 0⟩

/-- Go `DomainInfo`.  `DaysToExpire` holds the duration `d` returned by
`time.Until`; the `float64` the program stores is `d.Hours() / 24`, a total
conversion, and floating-point arithmetic is not modelled. -/
structure DomainInfo where
  DomainName : String
  Registrar : String
  ExpiryDate : String
  DaysToExpire : Duration
  Failed : Bool
  deriving DecidableEq, Repr

/-- Go `DomainInfo{}`. -/
def DomainInfo.zero : DomainInfo := ⟨"", "", "", 0, false⟩

/-- The errors the program returns; errors of the libraries are kept by their
message. -/
inductive Error where
  /-- Go `fmt.Errorf("No RDAP service found for %s", domainName)` -/
  | noRdapService (domainName : String)
  /-- Error returned by `client.QueryDomain`. -/
  | rdapQuery (err : String)
  /-- Error returned by `time.Parse`. -/
  | timeParse (err : String)
  /-- Go `fmt.Errorf("failed to read from standard input: %v", err)` -/
  | stdinRead (err : String)
  /-- Go `fmt.Errorf("no domain names provided")` -/
  | noDomainNames
  /-- Go `fmt.Errorf("failed to marshal JSON: %v", err)` -/
  | marshalJSON (err : String)
  deriving DecidableEq, Repr

/-- Text of an error, as `err.Error()` gives it. -/
def Error.message : Error → String
  | .noRdapService domainName => "No RDAP service found for " ++ domainName
  | .rdapQuery err => err
  | .timeParse err => err
  | .stdinRead err => "failed to read from standard input: " ++ err
  | .noDomainNames => "no domain names provided"
  | .marshalJSON err => "failed to marshal JSON: " ++ err

/-- RDAP `VCard`, seen through the one method the program calls, `Name()`. -/
structure VCard where
  Name : String
  deriving DecidableEq, Repr

/-- RDAP `Entity`; `Roles` is a slice that may be `nil` (`none`). -/
structure Entity where
  Roles : Option (List String)
  VCard : VCard
  deriving DecidableEq, Repr

/-- RDAP `Event`. -/
structure Event where
  Action : String
  Date : String
  deriving DecidableEq, Repr

/-- RDAP `Domain`, the fields the program reads. -/
structure Domain where
  Entities : List Entity
  Events : List Event
  deriving DecidableEq, Repr

/-- Requests the program sends to the network. -/
inductive Call where
  | httpGet (url : String)
  | queryDomain (domainName : String)
  deriving DecidableEq, Repr

/-- Go `map[string]string`. -/
abbrev ServiceMap := String → Option String

/-- Go `make(map[string]string)`. -/
def ServiceMap.empty : ServiceMap := fun _ => none

/-- Go `values[key] = value`. -/
def ServiceMap.set (values : ServiceMap) (key value : String) : ServiceMap :=
  fun k => if k = key then some value else values k

/-- What the program obtains from outside itself. -/
structure World where
  /-- Go `os.Getenv` -/
  getenv : String → String
  /-- Content of standard input. -/
  stdin : String
  /-- Go `http.Get(url)`: the body of the response; `none` when the request
  failed, in which case the returned response is `nil`. -/
  httpGet : String → Option String
  /-- Go `json.NewDecoder(body).Decode(&data)`: the value of `data.Services`
  afterwards (the error is discarded); `[]` when nothing was decoded. -/
  decodeServices : String → List (List (List String))
  /-- Go `(*rdap.Client).QueryDomain` -/
  queryDomain : String → Except String Domain
  /-- Go `time.Parse(time.RFC3339, s)` -/
  parseRFC3339 : String → Except String Time
  /-- Go `t.Format(time.RFC3339)` -/
  formatRFC3339 : Time → String
  /-- Go `time.Until(t)` -/
  timeUntil : Time → Duration
  /-- Go `json.MarshalIndent(results, "", "  ")`, which cannot fail on a slice of
  `DomainInfo`: strings, booleans and finite floats are all encodable. -/
  marshalIndent : List DomainInfo → String
  /-- Days `d.Hours() / 24` printed with `%.2f`. -/
  formatDays : Duration → String

/-- Command-line flags of the `check` command, as `cli.Context` reports them:
`none` when `IsSet` is false. -/
structure Context where
  domain : Option (List String)
  env : Option String
  output : String

/-! ## `contains` (main.go 249-257) and `GetRdap` (main.go 185-223) -/

/-- Go `contains`. -/
def contains : List String → String → Bool
  | [], _ => false
  | v :: rest, str => if v = str then true else contains rest str

/-- Loop of main.go 194-199: the name of the first entity with a non-nil role
list containing "registrar"; the zero value of `registrar` otherwise. -/
def findRegistrar : List Entity → String
  | [] => ""
  | entity :: rest =>
    if (match entity.Roles with
        | none => false
        | some roles => contains roles "registrar")
    then entity.VCard.Name
    else findRegistrar rest

/-- Loop of main.go 203-212: the parsed date of the first event whose action
is "expiration" (a parse error ends the function); the zero time when the
loop ends without such an event. -/
def findExpiry (parse : String → Except String Time) : List Event → Except String Time
  | [] => .ok Time.zero
  | event :: rest =>
    if event.Action = "expiration" then parse event.Date
    else findExpiry parse rest

/-- Go `GetRdap`, with the requests it sends. -/
def GetRdap (w : World) (domainName : String) : List Call × DomainInfo × Option Error :=
  match w.queryDomain domainName with
  | .error err => ([.queryDomain domainName], DomainInfo.zero, some (.rdapQuery err))
  | .ok domain =>
    let registrar := if domain.Entities.length > 0 then findRegistrar domain.Entities else ""
    match findExpiry w.parseRFC3339 domain.Events with
    | .error err => ([.queryDomain domainName], DomainInfo.zero, some (.timeParse err))
    | .ok expiryDate =>
      ([.queryDomain domainName],
        { DomainName := domainName
          Registrar := registrar
          ExpiryDate := w.formatRFC3339 expiryDate
          DaysToExpire := w.timeUntil expiryDate
          Failed := false },
        none)

/-! ## `GetRdapServices` (main.go 232-247) and `GetDomainInfo` (main.go 141-154) -/

/-- Address of the service document. -/
def servicesURL : String := "https://data.iana.org/rdap/dns.json"

/-- Inner loop of main.go 241-243: `values[tld] = value[1][0]` for every
`tld` of `value[0]`. -/
def flattenTLDs (value : List (List String)) :
    List String → ServiceMap → Except Panic ServiceMap
  | [], values => .ok values
  | tld :: rest, values =>
    match index value 1 with
    | .error p => .error p
    | .ok urls =>
      match index urls 0 with
      | .error p => .error p
      | .ok url => flattenTLDs value rest (values.set tld url)

/-- Outer loop of main.go 240-244 over `data.Services`. -/
def flattenServices : List (List (List String)) → ServiceMap → Except Panic ServiceMap
  | [], values => .ok values
  | value :: rest, values =>
    match index value 0 with
    | .error p => .error p
    | .ok tlds =>
      match flattenTLDs value tlds values with
      | .error p => .error p
      | .ok values1 => flattenServices rest values1

/-- Go `GetRdapServices`.  When the request failed `response` is `nil`, and
`defer response.Body.Close()` evaluates `response.Body`. -/
def GetRdapServices (w : World) : Except Panic (List Call × ServiceMap) :=
  match w.httpGet servicesURL with
  | none => .error .nilPointerDereference
  | some body =>
    match flattenServices (w.decodeServices body) ServiceMap.empty with
    | .error p => .error p
    | .ok values => .ok ([.httpGet servicesURL], values)

/-- Go `GetDomainInfo`, with the requests it sends. -/
def GetDomainInfo (w : World) (domainName : String) :
    Except Panic (List Call × DomainInfo × Option Error) :=
  match ExtractTLD domainName with
  | .error p => .error p
  | .ok tld =>
    match GetRdapServices w with
    | .error p => .error p
    | .ok (calls, rdapServices) =>
      match rdapServices tld with
      | some _ => .ok (calls ++ (GetRdap w domainName).1, (GetRdap w domainName).2)
      | none => .ok (calls, DomainInfo.zero, some (.noRdapService domainName))

/-! ## The `check` command (main.go 66-131) -/

/-- Line written by `fmt.Println("Enter domain names (comma-separated):")`. -/
def stdinPrompt : String := "Enter domain names (comma-separated):\n"

/-- State of the command after main.go 67-98. -/
structure Collected where
  /-- What was written to standard output. -/
  stdout : List String
  /-- Whether standard input was read. -/
  stdinRead : Bool
  /-- Value of `domains`. -/
  domains : List String
  /-- Error returned at this point, `none` when the command goes on. -/
  err : Option Error
  deriving DecidableEq, Repr

/-- Value of `domains` after the two flag blocks, main.go 67-80. -/
def flagDomains (w : World) (c : Context) : List String :=
  let domains : List String :=
    match c.domain with
    | some slice => slice
    | none => []
  match c.env with
  | some name =>
    let envDomains := w.getenv name
    if envDomains ≠ "" then domains ++ Split envDomains ',' else domains
  | none => domains

/-- Collection of the domain names, main.go 67-98. -/
def collectDomains (w : World) (c : Context) : Collected :=
  let domains := flagDomains w c
  if domains.length = 0 then
    match ReadString w.stdin '\n' with
    | (_, some err) =>
      { stdout := [stdinPrompt], stdinRead := true, domains := domains,
        err := some (.stdinRead err) }
    | (input, none) =>
      let input := TrimSpace input
      let domains := if input ≠ "" then domains ++ Split input ',' else domains
      if domains.length = 0 then
        { stdout := [stdinPrompt], stdinRead := true, domains := domains,
          err := some .noDomainNames }
      else
        { stdout := [stdinPrompt], stdinRead := true, domains := domains, err := none }
  else
    { stdout := [], stdinRead := false, domains := domains, err := none }

/-- Variables of the lookup loop: `results`, the lines logged to standard
error (domain and error) and the requests sent. -/
structure LoopState where
  results : List DomainInfo
  log : List (String × Error)
  calls : List Call
  deriving DecidableEq, Repr

/-- Lookup loop of main.go 104-112 over the remaining domains. -/
def lookupLoop (lookup : String → Except Panic (List Call × DomainInfo × Option Error)) :
    List String → LoopState → Except Panic LoopState
  | [], st => .ok st
  | domain :: rest, st =>
    match lookup domain with
    | .error p => .error p
    | .ok (calls, _, some err) =>
      lookupLoop lookup rest
        { results := st.results, log := st.log ++ [(domain, err)], calls := st.calls ++ calls }
    | .ok (calls, domainInfo, none) =>
      lookupLoop lookup rest
        { results := st.results ++ [domainInfo], log := st.log, calls := st.calls ++ calls }

/-- Text output of main.go 121-127 for one result. -/
def renderText (w : World) (result : DomainInfo) : List String :=
  [ "Domain: " ++ result.DomainName ++ "\n",
    "Registrar: " ++ result.Registrar ++ "\n",
    "Expiry Date: " ++ result.ExpiryDate ++ "\n",
    "Days to Expire: " ++ w.formatDays result.DaysToExpire ++ "\n",
    "\n" ]

/-- Go `json.MarshalIndent(results, "", "  ")` as a pair `(jsonData, err)`. -/
def MarshalIndent (w : World) (results : List DomainInfo) : String × Option String :=
  (w.marshalIndent results, none)

/-- What one run of the command did and returned. -/
structure Outcome where
  /-- What was written to standard output, in order. -/
  stdout : List String
  /-- Lines logged to standard error: domain and error. -/
  log : List (String × Error)
  /-- Requests sent to the network, in order. -/
  calls : List Call
  /-- Whether standard input was read. -/
  stdinRead : Bool
  /-- Value of `results` when the command returned. -/
  results : List DomainInfo
  /-- Error returned by the command, `none` for `return nil`. -/
  err : Option Error
  deriving DecidableEq, Repr

/-- Action of the `check` command, main.go 66-131, over the lookup function
it calls for each domain. -/
def ActionWith (lookup : String → Except Panic (List Call × DomainInfo × Option Error))
    (w : World) (c : Context) : Except Panic Outcome :=
  let collected := collectDomains w c
  match collected.err with
  | some err =>
    .ok { stdout := collected.stdout, log := [], calls := [],
          stdinRead := collected.stdinRead, results := [], err := some err }
  | none =>
    let outputFormat := c.output
    match lookupLoop lookup collected.domains { results := [], log := [], calls := [] } with
    | .error p => .error p
    | .ok st =>
      if outputFormat = "json" then
        match MarshalIndent w st.results with
        | (_, some err) =>
          .ok { stdout := collected.stdout, log := st.log, calls := st.calls,
                stdinRead := collected.stdinRead, results := st.results,
                err := some (.marshalJSON err) }
        | (jsonData, none) =>
          .ok { stdout := collected.stdout ++ [jsonData ++ "\n"], log := st.log,
                calls := st.calls, stdinRead := collected.stdinRead,
                results := st.results, err := none }
      else
        .ok { stdout := collected.stdout ++ (st.results.map (renderText w)).flatten,
              log := st.log, calls := st.calls, stdinRead := collected.stdinRead,
              results := st.results, err := none }

/-- Action of the `check` command: every domain is looked up with
`GetDomainInfo`. -/
def Action (w : World) (c : Context) : Except Panic Outcome :=
  ActionWith (GetDomainInfo w) w c

/-! ## Sample inputs -/

/-- Sample RDAP answer: the third entity is the first registrar, the second
event the first expiration. -/
def sampleDomain : Domain :=
  { Entities :=
      [ { Roles := none, VCard := ⟨"No Roles"⟩ },
        { Roles := some ["technical"], VCard := ⟨"Tech Contact"⟩ },
        { Roles := some ["abuse", "registrar"], VCard := ⟨"Example Registrar"⟩ },
        { Roles := some ["registrar"], VCard := ⟨"Other Registrar"⟩ } ]
    Events :=
      [ { Action := "registration", Date := "1995-08-14T04:00:00Z" },
        { Action := "expiration", Date := "2030-08-13T04:00:00Z" },
        { Action := "expiration", Date := "2031-08-13T04:00:00Z" } ] }

/-- Sample RDAP answer whose first expiration date does not parse, followed by
one that does. -/
def sampleBadDate : Domain :=
  { Entities := [ { Roles := some ["registrar"], VCard := ⟨"Example Registrar"⟩ } ]
    Events :=
      [ { Action := "expiration", Date := "13/08/2030" },
        { Action := "expiration", Date := "2030-08-13T04:00:00Z" } ] }

/-- Sample RDAP answer with no entity and no event. -/
def sampleBare : Domain := { Entities := [], Events := [] }

/-- Sample service document, as decoded: "com" is listed twice. -/
def sampleServices : List (List (List String)) :=
  [ [["com", "net"], ["https://rdap.example/com/", "https://alt.example/com/"]],
    [["org"], ["https://rdap.example/org/"]],
    [["com"], ["https://rdap.example/com2/"]] ]

/-- Sample world: the service document is served, three domains are known to
the RDAP service, and standard input holds a blank line. -/
def sampleWorld : World :=
  { getenv := fun name => if name = "DOMAINS" then "a.com,b.org" else ""
    stdin := " \t\n"
    httpGet := fun url => if url = servicesURL then some "dns.json" else none
    decodeServices := fun _ => sampleServices
    queryDomain := fun name =>
      if name = "example.com" then .ok sampleDomain
      else if name = "baddate.com" then .ok sampleBadDate
      else if name = "bare.org" then .ok sampleBare
      else .error "object does not exist"
    parseRFC3339 := fun s =>
      if s = "2030-08-13T04:00:00Z" then .ok ⟨64000000000000000000, 0⟩
      else if s = "2031-08-13T04:00:00Z" then .ok ⟨64031536000000000000, 0⟩
      else .error "cannot parse time"
    formatRFC3339 := fun t =>
      if t = Time.zero then "0001-01-01T00:00:00Z"
      else if t.sinceZero = 64000000000000000000 then "2030-08-13T04:00:00Z"
      else "2031-08-13T04:00:00Z"
    timeUntil := fun t => t.sinceZero - 63999136000000000000
    marshalIndent := fun results => String.intercalate "," (results.map DomainInfo.DomainName)
    formatDays := fun d => toString (d / 86400000000000) }

/-- Sample world in which the request for the service document fails. -/
def offlineWorld : World :=
  { sampleWorld with httpGet := fun _ => none }

/-- Sample world whose service document lists a TLD without any service URL. -/
def noUrlWorld : World :=
  { sampleWorld with decodeServices := fun _ => [[["com"], []]] }

/-! ## Splitting and `ExtractTLD` -/

theorem splitChars_ne_nil (sep : Char) (l : List Char) : splitChars sep l ≠ [] := by
  cases l with
  | nil => simp [splitChars]
  | cons c cs =>
    unfold splitChars
    split
    · simp
    · split <;> simp

theorem splitChars_of_not_mem (sep : Char) (l : List Char) (h : sep ∉ l) :
    splitChars sep l = [l] := by
  induction l with
  | nil => rfl
  | cons c cs ih =>
    have hc : c ≠ sep := fun e => h (by simp [e])
    have hcs : sep ∉ cs := fun e => h (by simp [e])
    simp [splitChars, hc, ih hcs]

theorem splitChars_cons_ne (sep c : Char) (cs : List Char) (hc : c ≠ sep) :
    splitChars sep (c :: cs) =
      match splitChars sep cs with
      | [] => [[c]]
      | p :: ps => (c :: p) :: ps := by
  simp [splitChars, hc]

theorem splitChars_append_sep (sep : Char) (a b : List Char) :
    splitChars sep (a ++ sep :: b) = splitChars sep a ++ splitChars sep b := by
  induction a with
  | nil => simp [splitChars]
  | cons c cs ih =>
    by_cases hc : c = sep
    · simp [splitChars, hc, ih]
    · cases hs : splitChars sep cs with
      | nil => exact absurd hs (splitChars_ne_nil sep cs)
      | cons p ps =>
        rw [List.cons_append, splitChars_cons_ne sep c _ hc, splitChars_cons_ne sep c _ hc,
          ih, hs]
        rfl

theorem exists_last_occurrence (sep : Char) (l : List Char) (h : sep ∈ l) :
    ∃ a b, l = a ++ sep :: b ∧ sep ∉ b := by
  have hr : sep ∈ l.reverse := by simpa using h
  obtain ⟨s, t, hst, hs⟩ := List.eq_append_cons_of_mem hr
  refine ⟨t.reverse, s.reverse, ?_, by simpa using hs⟩
  have := congrArg List.reverse hst
  simpa using this

theorem splitChars_intercalate (sep : Char) (l : List Char) :
    [sep].intercalate (splitChars sep l) = l := by
  induction l with
  | nil => simp [splitChars, List.intercalate]
  | cons c cs ih =>
    by_cases hc : c = sep
    · cases hs : splitChars sep cs with
      | nil => exact absurd hs (splitChars_ne_nil sep cs)
      | cons p ps =>
        rw [hs] at ih
        simp [splitChars, hc, hs, List.intercalate] at ih ⊢
        exact ih
    · cases hs : splitChars sep cs with
      | nil => exact absurd hs (splitChars_ne_nil sep cs)
      | cons p ps =>
        rw [hs] at ih
        cases ps with
        | nil => simp [splitChars, hc, hs, List.intercalate] at ih ⊢; exact ih
        | cons q qs => simp [splitChars, hc, hs, List.intercalate] at ih ⊢; exact ih

theorem splitChars_no_sep (sep : Char) (l : List Char) :
    ∀ p ∈ splitChars sep l, sep ∉ p := by
  induction l with
  | nil => simp [splitChars]
  | cons c cs ih =>
    by_cases hc : c = sep
    · simp only [splitChars, hc, if_true]
      intro p hp
      rcases List.mem_cons.mp hp with rfl | hp
      · simp
      · exact ih p hp
    · cases hs : splitChars sep cs with
      | nil => exact absurd hs (splitChars_ne_nil sep cs)
      | cons q qs =>
        rw [hs] at ih
        simp only [splitChars, hc, if_false, hs]
        intro p hp
        rcases List.mem_cons.mp hp with rfl | hp
        · have := ih q (by simp)
          simp [this, Ne.symm hc]
        · exact ih p (by simp [hp])

theorem index_last {α : Type} (xs : List α) (x : α) :
    index (xs ++ [x]) ((xs ++ [x]).length - 1) = .ok x := by
  simp [index, List.get?_eq_getElem?]

/-- C2 `ExtractTLD` returns the last dot-separated segment: the result
contains no dot; when the input contains a dot the input is some text, a dot
and the result; when it contains none (the empty string included) the result
is the input. -/
theorem ExtractTLD_last_segment (domain : String) :
    ∃ tld : String, ExtractTLD domain = .ok tld ∧ '.' ∉ tld.data ∧
      ('.' ∈ domain.data → ∃ pre : String, domain = pre ++ "." ++ tld) ∧
      ('.' ∉ domain.data → tld = domain) := by
  by_cases h : '.' ∈ domain.data
  · obtain ⟨a, b, hab, hb⟩ := exists_last_occurrence '.' domain.data h
    refine ⟨String.mk b, ?_, hb, fun _ => ⟨String.mk a, ?_⟩, fun h' => absurd h h'⟩
    · simp only [ExtractTLD, Split, hab, splitChars_append_sep,
        splitChars_of_not_mem '.' b hb, List.map_append, List.map_cons, List.map_nil]
      exact index_last _ _
    · apply String.ext
      simp [hab]
  · refine ⟨domain, ?_, h, fun h' => absurd h' h, fun _ => rfl⟩
    simp [ExtractTLD, Split, splitChars_of_not_mem '.' domain.data h, index]

theorem ExtractTLD_last_segment_witness :
    (∃ tld : String, ExtractTLD "www.example.com" = .ok tld ∧ '.' ∉ tld.data ∧
      ('.' ∈ "www.example.com".data → ∃ pre : String, "www.example.com" = pre ++ "." ++ tld) ∧
      ('.' ∉ "www.example.com".data → tld = "www.example.com")) ∧
    ExtractTLD "www.example.com" = .ok "com" ∧ ExtractTLD "localhost" = .ok "localhost" ∧
    ExtractTLD "" = .ok "" ∧ ExtractTLD "example." = .ok "" :=
  ⟨ExtractTLD_last_segment "www.example.com", by decide, by decide, by decide, by decide⟩

/-! ## `GetRdap`: registrar and expiry -/

theorem contains_iff (slice : List String) (str : String) :
    contains slice str = true ↔ str ∈ slice := by
  induction slice with
  | nil => simp [contains]
  | cons v rest ih =>
    by_cases h : v = str
    · simp [contains, h]
    · simp [contains, h, ih, Ne.symm h]

theorem findRegistrar_first (pre : List Entity) (entity : Entity) (post : List Entity)
    (hpre : ∀ e ∈ pre, ¬ ∃ roles, e.Roles = some roles ∧ "registrar" ∈ roles)
    (hent : ∃ roles, entity.Roles = some roles ∧ "registrar" ∈ roles) :
    findRegistrar (pre ++ entity :: post) = entity.VCard.Name := by
  induction pre with
  | nil =>
    obtain ⟨roles, hr, hm⟩ := hent
    simp [findRegistrar, hr, (contains_iff roles "registrar").mpr hm]
  | cons e rest ih =>
    have he := hpre e (by simp)
    have hrest : ∀ x ∈ rest, ¬ ∃ roles, x.Roles = some roles ∧ "registrar" ∈ roles :=
      fun x hx => hpre x (by simp [hx])
    cases hr : e.Roles with
    | none => simp [findRegistrar, hr, ih hrest]
    | some roles =>
      have hn : contains roles "registrar" = false := by
        cases hc : contains roles "registrar" with
        | false => rfl
        | true => exact absurd ⟨roles, hr, (contains_iff roles "registrar").mp hc⟩ he
      simp [findRegistrar, hr, hn, ih hrest]

theorem findRegistrar_none (entities : List Entity)
    (h : ∀ e ∈ entities, ¬ ∃ roles, e.Roles = some roles ∧ "registrar" ∈ roles) :
    findRegistrar entities = "" := by
  induction entities with
  | nil => rfl
  | cons e rest ih =>
    have he := h e (by simp)
    have hrest : ∀ x ∈ rest, ¬ ∃ roles, x.Roles = some roles ∧ "registrar" ∈ roles :=
      fun x hx => h x (by simp [hx])
    cases hr : e.Roles with
    | none => simp [findRegistrar, hr, ih hrest]
    | some roles =>
      have hn : contains roles "registrar" = false := by
        cases hc : contains roles "registrar" with
        | false => rfl
        | true => exact absurd ⟨roles, hr, (contains_iff roles "registrar").mp hc⟩ he
      simp [findRegistrar, hr, hn, ih hrest]

theorem findExpiry_first (parse : String → Except String Time) (pre : List Event)
    (event : Event) (post : List Event)
    (hpre : ∀ e ∈ pre, e.Action ≠ "expiration") (hev : event.Action = "expiration") :
    findExpiry parse (pre ++ event :: post) = parse event.Date := by
  induction pre with
  | nil => simp [findExpiry, hev]
  | cons e rest ih =>
    have he := hpre e (by simp)
    simp [findExpiry, he, ih (fun x hx => hpre x (by simp [hx]))]

theorem findExpiry_none (parse : String → Except String Time) (events : List Event)
    (h : ∀ e ∈ events, e.Action ≠ "expiration") :
    findExpiry parse events = .ok Time.zero := by
  induction events with
  | nil => rfl
  | cons e rest ih =>
    have he := h e (by simp)
    simp [findExpiry, he, ih (fun x hx => h x (by simp [hx]))]

theorem registrar_of_GetRdap (w : World) (domainName : String) (domain : Domain)
    (hq : w.queryDomain domainName = .ok domain) (calls : List Call) (info : DomainInfo)
    (hr : GetRdap w domainName = (calls, info, none)) :
    info.Registrar = findRegistrar domain.Entities := by
  unfold GetRdap at hr
  rw [hq] at hr
  simp only at hr
  cases hx : findExpiry w.parseRFC3339 domain.Events with
  | error err => rw [hx] at hr; simp at hr
  | ok t =>
    rw [hx] at hr
    simp only [Prod.mk.injEq] at hr
    obtain ⟨_, hinfo, _⟩ := hr
    rw [← hinfo]
    cases hE : domain.Entities with
    | nil => simp [findRegistrar]
    | cons e es => simp

/-- C3 expiry used by `GetRdap`: the date of the first "expiration" event,
parsed as RFC3339, whatever events follow it; a parse error on that date makes
the lookup fail with that error and the zero `DomainInfo`; with no
"expiration" event the lookup succeeds with the zero time. -/
theorem GetRdap_expiry (w : World) (domainName : String) (domain : Domain)
    (hq : w.queryDomain domainName = .ok domain) :
    (∀ (pre : List Event) (event : Event) (post : List Event),
        domain.Events = pre ++ event :: post →
        (∀ e ∈ pre, e.Action ≠ "expiration") → event.Action = "expiration" →
        (∀ t, w.parseRFC3339 event.Date = .ok t →
          ∃ info, GetRdap w domainName = ([.queryDomain domainName], info, none) ∧
            info.DomainName = domainName ∧
            info.ExpiryDate = w.formatRFC3339 t ∧ info.DaysToExpire = w.timeUntil t) ∧
        (∀ err, w.parseRFC3339 event.Date = .error err →
          GetRdap w domainName =
            ([.queryDomain domainName], DomainInfo.zero, some (.timeParse err)))) ∧
    ((∀ e ∈ domain.Events, e.Action ≠ "expiration") →
        ∃ info, GetRdap w domainName = ([.queryDomain domainName], info, none) ∧
          info.DomainName = domainName ∧
          info.ExpiryDate = w.formatRFC3339 Time.zero ∧
          info.DaysToExpire = w.timeUntil Time.zero) := by
  refine ⟨fun pre event post hev hpre hact => ⟨fun t ht => ?_, fun err herr => ?_⟩,
    fun hnone => ?_⟩
  · have hx := findExpiry_first w.parseRFC3339 pre event post hpre hact
    rw [← hev, ht] at hx
    simp [GetRdap, hq, hx]
  · have hx := findExpiry_first w.parseRFC3339 pre event post hpre hact
    rw [← hev, herr] at hx
    simp [GetRdap, hq, hx]
  · have hx := findExpiry_none w.parseRFC3339 domain.Events hnone
    simp [GetRdap, hq, hx]

theorem GetRdap_expiry_witness :
    sampleWorld.queryDomain "example.com" = .ok sampleDomain ∧
    (∃ info, GetRdap sampleWorld "example.com" = ([.queryDomain "example.com"], info, none) ∧
      info.DomainName = "example.com" ∧
      info.ExpiryDate = sampleWorld.formatRFC3339 ⟨64000000000000000000, 0⟩ ∧
      info.DaysToExpire = sampleWorld.timeUntil ⟨64000000000000000000, 0⟩) ∧
    sampleWorld.queryDomain "baddate.com" = .ok sampleBadDate ∧
    GetRdap sampleWorld "baddate.com" =
      ([.queryDomain "baddate.com"], DomainInfo.zero, some (.timeParse "cannot parse time")) ∧
    sampleWorld.queryDomain "bare.org" = .ok sampleBare ∧
    (∃ info, GetRdap sampleWorld "bare.org" = ([.queryDomain "bare.org"], info, none) ∧
      info.DomainName = "bare.org" ∧
      info.ExpiryDate = sampleWorld.formatRFC3339 Time.zero ∧
      info.DaysToExpire = sampleWorld.timeUntil Time.zero) :=
  ⟨by decide,
    ((GetRdap_expiry sampleWorld "example.com" sampleDomain (by decide)).1
      [⟨"registration", "1995-08-14T04:00:00Z"⟩] ⟨"expiration", "2030-08-13T04:00:00Z"⟩
      [⟨"expiration", "2031-08-13T04:00:00Z"⟩] (by decide) (by decide) (by decide)).1
      ⟨64000000000000000000, 0⟩ (by decide),
    by decide,
    ((GetRdap_expiry sampleWorld "baddate.com" sampleBadDate (by decide)).1
      [] ⟨"expiration", "13/08/2030"⟩ [⟨"expiration", "2030-08-13T04:00:00Z"⟩]
      (by decide) (by decide) (by decide)).2 "cannot parse time" (by decide),
    by decide,
    (GetRdap_expiry sampleWorld "bare.org" sampleBare (by decide)).2 (by decide)⟩

/-- C4 registrar returned by `GetRdap`: on a successful lookup it is the
display name of the first entity, in list order, whose role list contains
"registrar", and the empty string when the entity list is empty or no entity
has that role. -/
theorem GetRdap_registrar (w : World) (domainName : String) (domain : Domain)
    (hq : w.queryDomain domainName = .ok domain) (calls : List Call) (info : DomainInfo)
    (hr : GetRdap w domainName = (calls, info, none)) :
    (∀ (pre : List Entity) (entity : Entity) (post : List Entity),
        domain.Entities = pre ++ entity :: post →
        (∀ e ∈ pre, ¬ ∃ roles, e.Roles = some roles ∧ "registrar" ∈ roles) →
        (∃ roles, entity.Roles = some roles ∧ "registrar" ∈ roles) →
        info.Registrar = entity.VCard.Name) ∧
    ((∀ e ∈ domain.Entities, ¬ ∃ roles, e.Roles = some roles ∧ "registrar" ∈ roles) →
        info.Registrar = "") := by
  have hreg := registrar_of_GetRdap w domainName domain hq calls info hr
  refine ⟨fun pre entity post hE hpre hent => ?_, fun hnone => ?_⟩
  · rw [hreg, hE]
    exact findRegistrar_first pre entity post hpre hent
  · rw [hreg]
    exact findRegistrar_none domain.Entities hnone

theorem GetRdap_registrar_witness :
    sampleWorld.queryDomain "example.com" = .ok sampleDomain ∧
    GetRdap sampleWorld "example.com" =
      ([.queryDomain "example.com"],
        ⟨"example.com", "Example Registrar", "2030-08-13T04:00:00Z", 864000000000000, false⟩,
        none) ∧
    (⟨"example.com", "Example Registrar", "2030-08-13T04:00:00Z", 864000000000000,
        false⟩ : DomainInfo).Registrar = "Example Registrar" :=
  ⟨by decide, by decide,
    (GetRdap_registrar sampleWorld "example.com" sampleDomain (by decide) _ _
      (by decide : GetRdap sampleWorld "example.com" =
        ([.queryDomain "example.com"],
          ⟨"example.com", "Example Registrar", "2030-08-13T04:00:00Z", 864000000000000, false⟩,
          none))).1
      [⟨none, ⟨"No Roles"⟩⟩, ⟨some ["technical"], ⟨"Tech Contact"⟩⟩]
      ⟨some ["abuse", "registrar"], ⟨"Example Registrar"⟩⟩
      [⟨some ["registrar"], ⟨"Other Registrar"⟩⟩] (by decide)
      (by decide) ⟨["abuse", "registrar"], rfl, by decide⟩⟩
/-! ## `GetRdapServices` and `GetDomainInfo` -/

theorem ExtractTLD_returns (domain : String) : ∃ tld, ExtractTLD domain = .ok tld := by
  have hne : Split domain '.' ≠ [] := by simp [Split, splitChars_ne_nil]
  obtain ⟨front, x, hx⟩ : ∃ front x, Split domain '.' = front ++ [x] :=
    ⟨_, _, (List.dropLast_append_getLast hne).symm⟩
  exact ⟨x, by simp only [ExtractTLD, hx]; exact index_last front x⟩

theorem GetRdap_not_noRdapService (w : World) (domainName name : String) :
    (GetRdap w domainName).2.2 ≠ some (.noRdapService name) := by
  unfold GetRdap
  cases hq : w.queryDomain domainName with
  | error err => simp
  | ok domain =>
    cases hx : findExpiry w.parseRFC3339 domain.Events with
    | error err => simp [hx]
    | ok t => simp [hx]

theorem GetRdapServices_calls (w : World) (calls : List Call) (services : ServiceMap)
    (hs : GetRdapServices w = .ok (calls, services)) : calls = [.httpGet servicesURL] := by
  unfold GetRdapServices at hs
  cases hg : w.httpGet servicesURL with
  | none => rw [hg] at hs; simp at hs
  | some body =>
    rw [hg] at hs
    simp only at hs
    cases hf : flattenServices (w.decodeServices body) ServiceMap.empty with
    | error p => rw [hf] at hs; simp at hs
    | ok values =>
      rw [hf] at hs
      simp only [Except.ok.injEq, Prod.mk.injEq] at hs
      exact hs.1.symm

/-- C1 `GetDomainInfo`, once `GetRdapServices` has returned a directory: it
fails with the "No RDAP service found" error exactly when the directory has no
entry for `ExtractTLD(domain)`, and then sends no RDAP query; when there is an
entry it returns what `GetRdap` returns for the same name. -/
theorem GetDomainInfo_service_lookup (w : World) (domainName : String) (calls : List Call)
    (services : ServiceMap) (hs : GetRdapServices w = .ok (calls, services)) :
    ∃ tld, ExtractTLD domainName = .ok tld ∧
      ((∃ cs info name,
          GetDomainInfo w domainName = .ok (cs, info, some (.noRdapService name))) ↔
        services tld = none) ∧
      (services tld = none →
        GetDomainInfo w domainName =
            .ok (calls, DomainInfo.zero, some (.noRdapService domainName)) ∧
          ∀ name, Call.queryDomain name ∉ calls) ∧
      (∀ url, services tld = some url →
        GetDomainInfo w domainName =
          .ok (calls ++ (GetRdap w domainName).1, (GetRdap w domainName).2)) := by
  obtain ⟨tld, htld⟩ := ExtractTLD_returns domainName
  have hcalls := GetRdapServices_calls w calls services hs
  have hnone : services tld = none →
      GetDomainInfo w domainName =
        .ok (calls, DomainInfo.zero, some (.noRdapService domainName)) := by
    intro h
    simp [GetDomainInfo, htld, hs, h]
  have hsome : ∀ url, services tld = some url →
      GetDomainInfo w domainName =
        .ok (calls ++ (GetRdap w domainName).1, (GetRdap w domainName).2) := by
    intro url h
    simp [GetDomainInfo, htld, hs, h]
  refine ⟨tld, htld, ⟨?_, fun h => ⟨_, _, _, hnone h⟩⟩, fun h => ⟨hnone h, ?_⟩, hsome⟩
  · rintro ⟨cs, info, name, hg⟩
    cases hv : services tld with
    | none => rfl
    | some url =>
      rw [hsome url hv] at hg
      simp only [Except.ok.injEq, Prod.mk.injEq] at hg
      have hbad : (GetRdap w domainName).2.2 = some (.noRdapService name) := by
        rw [hg.2]
      exact absurd hbad (GetRdap_not_noRdapService w domainName name)
  · intro name
    simp [hcalls]

theorem GetDomainInfo_service_lookup_witness :
    (∃ services, GetRdapServices sampleWorld = .ok ([.httpGet servicesURL], services) ∧
      services "com" = some "https://rdap.example/com2/" ∧ services "dev" = none) ∧
    GetDomainInfo sampleWorld "example.dev" =
      .ok ([.httpGet servicesURL], DomainInfo.zero, some (.noRdapService "example.dev")) ∧
    GetDomainInfo sampleWorld "example.com" =
      .ok ([.httpGet servicesURL] ++ (GetRdap sampleWorld "example.com").1,
        (GetRdap sampleWorld "example.com").2) :=
  have hs : GetRdapServices sampleWorld =
      .ok ([.httpGet servicesURL],
        (((ServiceMap.empty.set "com" "https://rdap.example/com/").set "net"
          "https://rdap.example/com/").set "org" "https://rdap.example/org/").set "com"
          "https://rdap.example/com2/") := rfl
  ⟨⟨_, hs, by decide, by decide⟩,
    by
      obtain ⟨tld, htld, _, hnone, _⟩ :=
        GetDomainInfo_service_lookup sampleWorld "example.dev" _ _ hs
      have ht : tld = "dev" := by
        have h : ExtractTLD "example.dev" = .ok "dev" := by decide
        rw [h] at htld
        exact (Except.ok.inj htld).symm
      subst ht
      exact (hnone (by decide)).1,
    by
      obtain ⟨tld, htld, _, _, hsome⟩ :=
        GetDomainInfo_service_lookup sampleWorld "example.com" _ _ hs
      have ht : tld = "com" := by
        have h : ExtractTLD "example.com" = .ok "com" := by decide
        rw [h] at htld
        exact (Except.ok.inj htld).symm
      subst ht
      exact hsome "https://rdap.example/com2/" (by decide)⟩
/-! ## Flattening of the service document -/

theorem flattenTLDs_pair (tlds urls : List String) (hurl : tlds ≠ [] → urls ≠ [])
    (todo : List String) (htodo : todo ≠ [] → tlds ≠ []) (values : ServiceMap) :
    flattenTLDs [tlds, urls] todo values =
      .ok (fun k => if k ∈ todo then urls.head? else values k) := by
  induction todo generalizing values with
  | nil => simp [flattenTLDs]
  | cons tld rest ih =>
    have hne : urls ≠ [] := hurl (htodo (by simp))
    obtain ⟨url, more, rfl⟩ := List.exists_cons_of_ne_nil hne
    have hrest : rest ≠ [] → tlds ≠ [] := fun _ => htodo (by simp)
    simp only [flattenTLDs, index, List.get?_cons_succ, List.get?_cons_zero]
    rw [ih hrest]
    congr 1
    funext k
    by_cases hk : k ∈ rest
    · simp [hk]
    · by_cases hk2 : k = tld
      · simp [hk2, ServiceMap.set]
      · simp [hk, hk2, ServiceMap.set]

theorem flattenServices_pairs (pairs : List (List String × List String))
    (hurl : ∀ p ∈ pairs, p.1 ≠ [] → p.2 ≠ []) (values : ServiceMap) :
    ∃ m, flattenServices (pairs.map (fun p => [p.1, p.2])) values = .ok m ∧
      (∀ k, (∀ p ∈ pairs, k ∉ p.1) → m k = values k) ∧
      (∀ k pre p post, pairs = pre ++ p :: post → k ∈ p.1 → (∀ q ∈ post, k ∉ q.1) →
        m k = p.2.head?) := by
  induction pairs generalizing values with
  | nil =>
    refine ⟨values, rfl, fun _ _ => rfl, ?_⟩
    intro k pre p post h
    simp at h
  | cons p0 rest ih =>
    obtain ⟨m, hm, hout, hin⟩ :=
      ih (fun p hp => hurl p (by simp [hp]))
        (fun k => if k ∈ p0.1 then p0.2.head? else values k)
    have hstep := flattenTLDs_pair p0.1 p0.2 (hurl p0 (by simp)) p0.1 id values
    refine ⟨m, ?_, ?_, ?_⟩
    · simp only [List.map_cons, flattenServices, index, List.get?_cons_zero, hstep]
      exact hm
    · intro k hk
      rw [hout k (fun p hp => hk p (by simp [hp]))]
      simp [hk p0 (by simp)]
    · intro k pre p post hsplit hkp hpost
      cases pre with
      | nil =>
        simp only [List.nil_append, List.cons.injEq] at hsplit
        obtain ⟨rfl, rfl⟩ := hsplit
        rw [hout k hpost]
        simp [hkp]
      | cons a pre1 =>
        simp only [List.cons_append, List.cons.injEq] at hsplit
        exact hin k pre1 p post hsplit.2 hkp hpost

theorem exists_last_listing (pairs : List (List String × List String)) (k : String)
    (h : ∃ p ∈ pairs, k ∈ p.1) :
    ∃ pre p post, pairs = pre ++ p :: post ∧ k ∈ p.1 ∧ ∀ q ∈ post, k ∉ q.1 := by
  induction pairs with
  | nil => simp at h
  | cons a rest ih =>
    by_cases hr : ∃ p ∈ rest, k ∈ p.1
    · obtain ⟨pre, p, post, hsplit, hk, hpost⟩ := ih hr
      exact ⟨a :: pre, p, post, by simp [hsplit], hk, hpost⟩
    · obtain ⟨p, hp, hk⟩ := h
      rcases List.mem_cons.mp hp with rfl | hp
      · exact ⟨[], p, rest, rfl, hk, fun q hq hkq => hr ⟨q, hq, hkq⟩⟩
      · exact absurd ⟨p, hp, hk⟩ hr

/-- C5 counterexample: on a document whose only pair lists the TLD "com" and
no service URL, the flattening returns no map; `value[1][0]` is out of range. -/
theorem GetRdapServices_no_url_panics :
    noUrlWorld.httpGet servicesURL = some "dns.json" ∧
    noUrlWorld.decodeServices "dns.json" =
      [(["com"], ([] : List String))].map (fun p => [p.1, p.2]) ∧
    GetRdapServices noUrlWorld = .error .indexOutOfRange ∧
    ¬ ∃ calls m, GetRdapServices noUrlWorld = .ok (calls, m) := by
  refine ⟨by decide, by decide, rfl, ?_⟩
  rintro ⟨calls, m, h⟩
  have h2 : GetRdapServices noUrlWorld = .error .indexOutOfRange := rfl
  rw [h2] at h
  cases h

/-- C5 amended: for a decoded service document given as pairs (TLDs, service
URLs) in which every pair listing a TLD has at least one URL,
`GetRdapServices` returns a map whose keys are exactly the TLDs listed by some
pair, each mapped to the first URL of the last pair listing it. -/
theorem GetRdapServices_flatten (w : World) (body : String)
    (pairs : List (List String × List String))
    (hget : w.httpGet servicesURL = some body)
    (hdec : w.decodeServices body = pairs.map (fun p => [p.1, p.2]))
    (hurl : ∀ p ∈ pairs, p.1 ≠ [] → p.2 ≠ []) :
    ∃ m, GetRdapServices w = .ok ([.httpGet servicesURL], m) ∧
      (∀ tld, (∃ url, m tld = some url) ↔ ∃ p ∈ pairs, tld ∈ p.1) ∧
      (∀ tld pre p post, pairs = pre ++ p :: post → tld ∈ p.1 →
        (∀ q ∈ post, tld ∉ q.1) →
        ∃ url more, p.2 = url :: more ∧ m tld = some url) := by
  obtain ⟨m, hm, hout, hin⟩ := flattenServices_pairs pairs hurl ServiceMap.empty
  have hval : ∀ tld pre p post, pairs = pre ++ p :: post → tld ∈ p.1 →
      (∀ q ∈ post, tld ∉ q.1) → ∃ url more, p.2 = url :: more ∧ m tld = some url := by
    intro tld pre p post hsplit hk hpost
    have hp : p ∈ pairs := by simp [hsplit]
    have hne : p.2 ≠ [] := hurl p hp (List.ne_nil_of_mem hk)
    obtain ⟨url, more, hu⟩ := List.exists_cons_of_ne_nil hne
    exact ⟨url, more, hu, by rw [hin tld pre p post hsplit hk hpost, hu]; rfl⟩
  refine ⟨m, by simp [GetRdapServices, hget, hdec, hm], fun tld => ⟨?_, ?_⟩, hval⟩
  · rintro ⟨url, hu⟩
    by_contra hno
    have hnone : m tld = none := by
      rw [hout tld (fun p hp hk => hno ⟨p, hp, hk⟩)]
      rfl
    rw [hnone] at hu
    cases hu
  · intro h
    obtain ⟨pre, p, post, hsplit, hk, hpost⟩ := exists_last_listing pairs tld h
    obtain ⟨url, _, _, hu⟩ := hval tld pre p post hsplit hk hpost
    exact ⟨url, hu⟩

theorem GetRdapServices_flatten_witness :
    ∃ m, GetRdapServices sampleWorld = .ok ([.httpGet servicesURL], m) ∧
      m "com" = some "https://rdap.example/com2/" ∧
      m "net" = some "https://rdap.example/com/" ∧
      m "org" = some "https://rdap.example/org/" ∧
      ¬ ∃ url, m "dev" = some url := by
  obtain ⟨m, hm, hkeys, hval⟩ := GetRdapServices_flatten sampleWorld "dns.json"
    [ (["com", "net"], ["https://rdap.example/com/", "https://alt.example/com/"]),
      (["org"], ["https://rdap.example/org/"]),
      (["com"], ["https://rdap.example/com2/"]) ]
    (by decide) (by decide) (by decide)
  refine ⟨m, hm, ?_, ?_, ?_, ?_⟩
  · obtain ⟨url, more, hu, hmv⟩ := hval "com"
      [(["com", "net"], ["https://rdap.example/com/", "https://alt.example/com/"]),
        (["org"], ["https://rdap.example/org/"])]
      (["com"], ["https://rdap.example/com2/"]) [] rfl (by decide) (by decide)
    simp only [List.cons.injEq] at hu
    rw [hmv, ← hu.1]
  · obtain ⟨url, more, hu, hmv⟩ := hval "net" []
      (["com", "net"], ["https://rdap.example/com/", "https://alt.example/com/"])
      [(["org"], ["https://rdap.example/org/"]), (["com"], ["https://rdap.example/com2/"])]
      rfl (by decide) (by decide)
    simp only [List.cons.injEq] at hu
    rw [hmv, ← hu.1]
  · obtain ⟨url, more, hu, hmv⟩ := hval "org"
      [(["com", "net"], ["https://rdap.example/com/", "https://alt.example/com/"])]
      (["org"], ["https://rdap.example/org/"]) [(["com"], ["https://rdap.example/com2/"])]
      rfl (by decide) (by decide)
    simp only [List.cons.injEq] at hu
    rw [hmv, ← hu.1]
  · intro h
    have := (hkeys "dev").mp h
    revert this
    decide

/-- C10 at the failing input: when the request for the service document fails,
`GetRdapServices` panics on the nil response instead of returning an empty
map, and so does `GetDomainInfo` for every domain. -/
theorem GetRdapServices_failed_request_panics :
    offlineWorld.httpGet servicesURL = none ∧
    GetRdapServices offlineWorld = .error .nilPointerDereference ∧
    ∀ domainName, GetDomainInfo offlineWorld domainName = .error .nilPointerDereference := by
  refine ⟨rfl, rfl, fun domainName => ?_⟩
  obtain ⟨tld, htld⟩ := ExtractTLD_returns domainName
  have h : GetRdapServices offlineWorld = .error .nilPointerDereference := rfl
  simp [GetDomainInfo, htld, h]

theorem GetRdapServices_nothing_decoded (w : World) (body : String)
    (hget : w.httpGet servicesURL = some body) (hdec : w.decodeServices body = []) :
    GetRdapServices w = .ok ([.httpGet servicesURL], ServiceMap.empty) ∧
    ∀ domainName, GetDomainInfo w domainName =
      .ok ([.httpGet servicesURL], DomainInfo.zero, some (.noRdapService domainName)) := by
  have h : GetRdapServices w = .ok ([.httpGet servicesURL], ServiceMap.empty) := by
    simp [GetRdapServices, hget, hdec, flattenServices]
  refine ⟨h, fun domainName => ?_⟩
  obtain ⟨tld, htld⟩ := ExtractTLD_returns domainName
  simp [GetDomainInfo, htld, h, ServiceMap.empty]
/-! ## The input collector -/

theorem flagDomains_domain_only (w : World) (c : Context) (slice : List String)
    (hd : c.domain = some slice)
    (he : c.env = none ∨ ∃ name, c.env = some name ∧ w.getenv name = "") :
    flagDomains w c = slice := by
  rcases he with he | ⟨name, he, hv⟩
  · simp [flagDomains, hd, he]
  · simp [flagDomains, hd, he, hv]

theorem flagDomains_none (w : World) (c : Context)
    (hd : c.domain = none ∨ c.domain = some [])
    (he : c.env = none ∨ ∃ name, c.env = some name ∧ w.getenv name = "") :
    flagDomains w c = [] := by
  rcases hd with hd | hd <;> rcases he with he | ⟨name, he, hv⟩ <;>
    simp [flagDomains, hd, he, *]

theorem flagDomains_env (w : World) (c : Context) (name : String)
    (he : c.env = some name) (hv : w.getenv name ≠ "") :
    flagDomains w c =
      (match c.domain with
        | some slice => slice
        | none => []) ++ Split (w.getenv name) ',' := by
  simp [flagDomains, he, hv]

theorem collectDomains_of_flags (w : World) (c : Context) (h : flagDomains w c ≠ []) :
    collectDomains w c =
      { stdout := [], stdinRead := false, domains := flagDomains w c, err := none } := by
  have hl : (flagDomains w c).length ≠ 0 := fun e => h (List.length_eq_zero.mp e)
  simp [collectDomains, hl]

/-- C8 counterexample: with `--domain example.com` and `--env DOMAINS`, where
`DOMAINS` holds "a.com,b.org", the collected list is not the explicit list: the
pieces of the variable are appended to it. -/
theorem collectDomains_domain_and_env :
    (collectDomains sampleWorld
        { domain := some ["example.com"], env := some "DOMAINS", output := "text" }).domains =
      ["example.com", "a.com", "b.org"] ∧
    (collectDomains sampleWorld
        { domain := some ["example.com"], env := some "DOMAINS", output := "text" }).domains ≠
      ["example.com"] := by
  decide

/-- C8 amended: when `--domain` supplies a list, the collected list begins with
it, verbatim; it is exactly that list when `--env` is not set or names an empty
variable (and the list is not empty), and when `--env` names a non-empty
variable the comma-separated pieces of its value follow the list.  Standard
input is read in neither case. -/
theorem collectDomains_explicit_list (w : World) (c : Context) (slice : List String)
    (hd : c.domain = some slice) :
    ((c.env = none ∨ ∃ name, c.env = some name ∧ w.getenv name = "") → slice ≠ [] →
      collectDomains w c =
        { stdout := [], stdinRead := false, domains := slice, err := none }) ∧
    (∀ name, c.env = some name → w.getenv name ≠ "" →
      collectDomains w c =
        { stdout := [], stdinRead := false,
          domains := slice ++ Split (w.getenv name) ',', err := none }) := by
  constructor
  · intro he hne
    have hf := flagDomains_domain_only w c slice hd he
    rw [collectDomains_of_flags w c (by rw [hf]; exact hne), hf]
  · intro name he hv
    have hf := flagDomains_env w c name he hv
    rw [hd] at hf
    have hne : flagDomains w c ≠ [] := by
      rw [hf]
      simp [Split, splitChars_ne_nil]
    rw [collectDomains_of_flags w c hne, hf]

theorem collectDomains_explicit_list_witness :
    collectDomains sampleWorld
        { domain := some ["example.com", "bare.org"], env := none, output := "text" } =
      { stdout := [], stdinRead := false, domains := ["example.com", "bare.org"],
        err := none } ∧
    collectDomains sampleWorld
        { domain := some ["example.com"], env := some "DOMAINS", output := "text" } =
      { stdout := [], stdinRead := false,
        domains := ["example.com"] ++ Split (sampleWorld.getenv "DOMAINS") ',',
        err := none } :=
  ⟨(collectDomains_explicit_list sampleWorld
      { domain := some ["example.com", "bare.org"], env := none, output := "text" }
      ["example.com", "bare.org"] rfl).1 (Or.inl rfl) (by decide),
    (collectDomains_explicit_list sampleWorld
      { domain := some ["example.com"], env := some "DOMAINS", output := "text" }
      ["example.com"] rfl).2 "DOMAINS" rfl (by decide)⟩

/-- C9 with no explicit list and a non-empty environment variable, the
collector yields the pieces of the value split on commas, in order, untrimmed
and unfiltered (joined with commas they give the value back, and no piece
contains a comma), without reading standard input; "a.com,b.org" yields
"a.com" then "b.org". -/
theorem collectDomains_env_only (w : World) (c : Context) (name : String)
    (hd : c.domain = none) (he : c.env = some name) (hv : w.getenv name ≠ "") :
    collectDomains w c =
      { stdout := [], stdinRead := false, domains := Split (w.getenv name) ',',
        err := none } ∧
    [','].intercalate ((Split (w.getenv name) ',').map String.data) = (w.getenv name).data ∧
    (∀ piece ∈ Split (w.getenv name) ',', ',' ∉ piece.data) ∧
    (w.getenv name = "a.com,b.org" → (collectDomains w c).domains = ["a.com", "b.org"]) := by
  have hf := flagDomains_env w c name he hv
  rw [hd] at hf
  simp only [List.nil_append] at hf
  have hne : flagDomains w c ≠ [] := by
    rw [hf]
    simp [Split, splitChars_ne_nil]
  have hc := collectDomains_of_flags w c hne
  rw [hf] at hc
  refine ⟨hc, ?_, ?_, ?_⟩
  · have : (Split (w.getenv name) ',').map String.data = splitChars ',' (w.getenv name).data := by
      simp [Split, Function.comp_def]
    rw [this, splitChars_intercalate]
  · intro piece hp
    simp only [Split, List.mem_map] at hp
    obtain ⟨l, hl, rfl⟩ := hp
    exact splitChars_no_sep ',' _ l hl
  · intro hval
    rw [hc, hval]
    decide

theorem collectDomains_env_only_witness :
    sampleWorld.getenv "DOMAINS" ≠ "" ∧
    collectDomains sampleWorld { domain := none, env := some "DOMAINS", output := "text" } =
      { stdout := [], stdinRead := false, domains := ["a.com", "b.org"], err := none } :=
  ⟨by decide,
    (collectDomains_env_only sampleWorld
      { domain := none, env := some "DOMAINS", output := "text" } "DOMAINS" rfl rfl
      (by decide)).1⟩
/-! ## The `check` command -/

theorem readChars_blank (rest : List Char) (blank : List Char)
    (hb : ∀ ch ∈ blank, IsSpace ch = true) :
    ∃ line, readChars '\n' (blank ++ '\n' :: rest) = (line, none) ∧
      ∀ ch ∈ line, IsSpace ch = true := by
  induction blank with
  | nil => exact ⟨['\n'], by simp [readChars], by decide⟩
  | cons b more ih =>
    obtain ⟨line, hl, hsp⟩ := ih (fun ch hch => hb ch (by simp [hch]))
    by_cases hnl : b = '\n'
    · exact ⟨['\n'], by simp [readChars, hnl], by decide⟩
    · refine ⟨b :: line, by simp [readChars, hnl, hl], ?_⟩
      intro ch hch
      rcases List.mem_cons.mp hch with rfl | hch
      · exact hb _ (by simp)
      · exact hsp ch hch

theorem TrimSpace_blank (line : List Char) (hsp : ∀ ch ∈ line, IsSpace ch = true) :
    TrimSpace (String.mk line) = "" := by
  have h : line.dropWhile IsSpace = [] := List.dropWhile_eq_nil_iff.mpr hsp
  simp only [TrimSpace, h]
  rfl

theorem collectDomains_blank (w : World) (c : Context) (blank rest : List Char)
    (hd : c.domain = none ∨ c.domain = some [])
    (he : c.env = none ∨ ∃ name, c.env = some name ∧ w.getenv name = "")
    (hin : w.stdin.data = blank ++ '\n' :: rest)
    (hb : ∀ ch ∈ blank, IsSpace ch = true) :
    collectDomains w c =
      { stdout := [stdinPrompt], stdinRead := true, domains := [],
        err := some .noDomainNames } := by
  have hf := flagDomains_none w c hd he
  obtain ⟨line, hl, hsp⟩ := readChars_blank rest blank hb
  have ht := TrimSpace_blank line hsp
  simp [collectDomains, hf, ReadString, hin, hl, ht]

/-- C7 counterexample: with no flag and a blank line on standard input the
command fails with the "no domain names provided" error, yet it has written
the prompt to standard output. -/
theorem Action_blank_input_prompts :
    Action sampleWorld { domain := none, env := none, output := "text" } =
      .ok { stdout := ["Enter domain names (comma-separated):\n"], log := [], calls := [],
            stdinRead := true, results := [], err := some .noDomainNames } ∧
    ¬ ∃ r, Action sampleWorld { domain := none, env := none, output := "text" } = .ok r ∧
      r.stdout = [] := by
  have h : Action sampleWorld { domain := none, env := none, output := "text" } =
      .ok { stdout := ["Enter domain names (comma-separated):\n"], log := [], calls := [],
            stdinRead := true, results := [], err := some .noDomainNames } := by decide
  refine ⟨h, ?_⟩
  rintro ⟨r, hr, hout⟩
  rw [h] at hr
  cases hr
  cases hout

/-- C7 amended: when `--domain` gives nothing, `--env` is unset or names an
empty variable, and the line read from standard input is empty or blank, the
command fails with the "no domain names provided" error, looks nothing up, and
its only output on standard output is the prompt it printed before reading. -/
theorem Action_no_domains (lookup : String → Except Panic (List Call × DomainInfo × Option Error))
    (w : World) (c : Context) (blank rest : List Char)
    (hd : c.domain = none ∨ c.domain = some [])
    (he : c.env = none ∨ ∃ name, c.env = some name ∧ w.getenv name = "")
    (hin : w.stdin.data = blank ++ '\n' :: rest)
    (hb : ∀ ch ∈ blank, IsSpace ch = true) :
    ActionWith lookup w c =
        .ok { stdout := [stdinPrompt], log := [], calls := [], stdinRead := true,
              results := [], err := some .noDomainNames } ∧
      Error.message .noDomainNames = "no domain names provided" := by
  have hc := collectDomains_blank w c blank rest hd he hin hb
  refine ⟨?_, rfl⟩
  simp [ActionWith, hc]

theorem Action_no_domains_witness :
    ActionWith (GetDomainInfo sampleWorld) sampleWorld
        { domain := none, env := none, output := "json" } =
      .ok { stdout := [stdinPrompt], log := [], calls := [], stdinRead := true,
            results := [], err := some .noDomainNames } :=
  (Action_no_domains (GetDomainInfo sampleWorld) sampleWorld
    { domain := none, env := none, output := "json" } [Char.ofNat 32, '\t'] [] (Or.inl rfl) (Or.inl rfl)
    (by decide) (by decide)).1

theorem collectDomains_err_none (w : World) (c : Context)
    (h : (collectDomains w c).domains ≠ []) : (collectDomains w c).err = none := by
  revert h
  unfold collectDomains
  by_cases hl : (flagDomains w c).length = 0
  · have hnil : flagDomains w c = [] := List.length_eq_zero.mp hl
    simp only [hl, if_true]
    rcases ReadString w.stdin '\n' with ⟨input, _ | err⟩
    · simp only
      by_cases hz : (if TrimSpace input ≠ "" then
          flagDomains w c ++ Split (TrimSpace input) ',' else flagDomains w c).length = 0
      · rw [if_pos hz]
        intro h
        exact absurd (List.length_eq_zero.mp hz) h
      · rw [if_neg hz]
        intro _
        rfl
    · simp only
      intro h
      exact absurd hnil h
  · simp [hl]

theorem lookupLoop_returns
    (lookup : String → Except Panic (List Call × DomainInfo × Option Error))
    (outcome : String → List Call × DomainInfo × Option Error) (domains : List String)
    (h : ∀ d ∈ domains, lookup d = .ok (outcome d)) (st : LoopState) :
    lookupLoop lookup domains st =
      .ok { results := st.results ++ domains.filterMap (fun d =>
              match (outcome d).2.2 with
              | none => some (outcome d).2.1
              | some _ => none)
            log := st.log ++ domains.filterMap (fun d =>
              match (outcome d).2.2 with
              | none => none
              | some err => some (d, err))
            calls := st.calls ++ (domains.map (fun d => (outcome d).1)).flatten } := by
  induction domains generalizing st with
  | nil => simp [lookupLoop]
  | cons d rest ih =>
    have hd := h d (by simp)
    have hrest : ∀ x ∈ rest, lookup x = .ok (outcome x) := fun x hx => h x (by simp [hx])
    rcases ho : outcome d with ⟨calls, info, _ | err⟩
    · rw [ho] at hd
      simp [lookupLoop, hd, ih hrest, ho, List.filterMap_cons]
    · rw [ho] at hd
      simp [lookupLoop, hd, ih hrest, ho, List.filterMap_cons]

/-- C6 for every non-empty collected list of domains and every outcome of the
per-domain lookups, the command returns `nil` and its result list holds the
`DomainInfo` of exactly the domains whose lookup returned no error, in input
order; a failed lookup is logged and leaves nothing in the results, and every
domain of the list is looked up, failures before it notwithstanding. -/
theorem Action_skips_failed_lookups
    (lookup : String → Except Panic (List Call × DomainInfo × Option Error))
    (outcome : String → List Call × DomainInfo × Option Error)
    (w : World) (c : Context) (domains : List String)
    (hdom : (collectDomains w c).domains = domains) (hne : domains ≠ [])
    (hret : ∀ d ∈ domains, lookup d = .ok (outcome d)) :
    ∃ r, ActionWith lookup w c = .ok r ∧ r.err = none ∧
      r.results = domains.filterMap (fun d =>
        match (outcome d).2.2 with
        | none => some (outcome d).2.1
        | some _ => none) ∧
      r.log = domains.filterMap (fun d =>
        match (outcome d).2.2 with
        | none => none
        | some err => some (d, err)) ∧
      r.calls = (domains.map (fun d => (outcome d).1)).flatten ∧
      r.stdout = (collectDomains w c).stdout ++
        (if c.output = "json" then [w.marshalIndent r.results ++ "\n"]
         else (r.results.map (renderText w)).flatten) := by
  have herr : (collectDomains w c).err = none :=
    collectDomains_err_none w c (by rw [hdom]; exact hne)
  have hloop := lookupLoop_returns lookup outcome domains hret
    { results := [], log := [], calls := [] }
  simp only [List.nil_append] at hloop
  by_cases hj : c.output = "json"
  · have hA : ActionWith lookup w c = .ok
        { stdout := (collectDomains w c).stdout ++
            [w.marshalIndent (domains.filterMap (fun d =>
              match (outcome d).2.2 with
              | none => some (outcome d).2.1
              | some _ => none)) ++ "\n"]
          log := domains.filterMap (fun d =>
            match (outcome d).2.2 with
            | none => none
            | some err => some (d, err))
          calls := (domains.map (fun d => (outcome d).1)).flatten
          stdinRead := (collectDomains w c).stdinRead
          results := domains.filterMap (fun d =>
            match (outcome d).2.2 with
            | none => some (outcome d).2.1
            | some _ => none)
          err := none } := by
      simp only [ActionWith, herr, hdom, hloop, hj, if_true, MarshalIndent]
    exact ⟨_, hA, rfl, rfl, rfl, rfl, by simp [hj]⟩
  · have hA : ActionWith lookup w c = .ok
        { stdout := (collectDomains w c).stdout ++
            ((domains.filterMap (fun d =>
              match (outcome d).2.2 with
              | none => some (outcome d).2.1
              | some _ => none)).map (renderText w)).flatten
          log := domains.filterMap (fun d =>
            match (outcome d).2.2 with
            | none => none
            | some err => some (d, err))
          calls := (domains.map (fun d => (outcome d).1)).flatten
          stdinRead := (collectDomains w c).stdinRead
          results := domains.filterMap (fun d =>
            match (outcome d).2.2 with
            | none => some (outcome d).2.1
            | some _ => none)
          err := none } := by
      simp only [ActionWith, herr, hdom, hloop, hj, if_false]
    exact ⟨_, hA, rfl, rfl, rfl, rfl, by simp [hj]⟩

theorem Action_skips_failed_lookups_witness :
    ∃ r, Action sampleWorld
        { domain := some ["example.dev", "example.com", "baddate.com", "bare.org"],
          env := none, output := "text" } = .ok r ∧
      r.err = none ∧
      r.results =
        [ ⟨"example.com", "Example Registrar", "2030-08-13T04:00:00Z", 864000000000000, false⟩,
          ⟨"bare.org", "", "0001-01-01T00:00:00Z", -63999136000000000000, false⟩ ] ∧
      r.log =
        [ ("example.dev", .noRdapService "example.dev"),
          ("baddate.com", .timeParse "cannot parse time") ] := by
  obtain ⟨r, hr, he, hres, hlog, _⟩ :=
    Action_skips_failed_lookups (GetDomainInfo sampleWorld)
      (fun d =>
        match GetDomainInfo sampleWorld d with
        | .ok r => r
        | .error _ => ([], DomainInfo.zero, none))
      sampleWorld
      { domain := some ["example.dev", "example.com", "baddate.com", "bare.org"],
        env := none, output := "text" }
      ["example.dev", "example.com", "baddate.com", "bare.org"]
      (by decide) (by decide) (by decide)
  refine ⟨r, hr, he, ?_, ?_⟩
  · rw [hres]
    decide
  · rw [hlog]
    decide
end ExpirationCheck
